import Mathlib

/-!
Verification of the two rustlings conversion exercises
(`src/exercises/23_conversions/from_str.rs` and
`src/exercises/23_conversions/from_into.rs`).

Strings are embedded as `List Char`.  The Rust pipeline is:

* `s.split(',').collect::<Vec<&str>>()`  →  `splitComma`
* `str::parse::<u8>()` (i.e. `u8::from_str_radix(s, 10)`)  →  `parseU8`
* `Person::from_str` (strict, returns `Result<Person, ParsePersonError>`)
  →  `Person.fromStr?`
* `Person::from` (default fallback, returns `Person`)  →  `Person.fromInto?`

Both parsers index the split vector at positions 0 and 1 with `parts[0]`,
`parts[1]`, operations that panic when out of bounds.  The panic branch is
embedded as `none`: each parser returns an `Option` whose `none` value marks
a reachable panic, and totality is the theorem that the result is always
`some`.
-/

/-- Kinds of integer-parse failures of Rust's `u8::from_str` that the inputs
here can produce: `Empty` for the empty string, `InvalidDigit` for a
non-digit byte (including a lone sign), `PosOverflow` for values above
`u8::MAX`. -/
inductive IntErrorKind where
  | Empty
  | InvalidDigit
  | PosOverflow
deriving DecidableEq, Repr

/-- Decimal value of a digit character, `none` for non-digits; embeds
`char::to_digit(10)`. -/
def digitVal (c : Char) : Option Nat :=
  if '0' ≤ c ∧ c ≤ '9' then some (c.toNat - '0'.toNat) else none

/-- Digit-accumulation loop of `u8::from_str_radix`: starting from `acc`,
multiply by 10 and add each digit, failing with `InvalidDigit` on a
non-digit and with `PosOverflow` as soon as the accumulator would exceed
255 (the checked `mul`/`add` of the Rust loop). -/
def parseDigits (ds : List Char) (acc : Nat) : Except IntErrorKind Nat :=
  match ds with
  | [] => Except.ok acc
  | c :: rest =>
    match digitVal c with
    | none => Except.error IntErrorKind.InvalidDigit
    | some d =>
      if acc * 10 + d > 255 then Except.error IntErrorKind.PosOverflow
      else parseDigits rest (acc * 10 + d)

/-- Embedding of `str::parse::<u8>()`, i.e. `u8::from_str_radix(s, 10)`:
the empty string fails with `Empty`; a lone sign character fails with
`InvalidDigit`; a leading `+` is stripped (unsigned parsing accepts it);
a leading `-` is left in place and fails as a non-digit; the remaining
characters go through the digit loop. -/
def parseU8 (s : List Char) : Except IntErrorKind Nat :=
  match s with
  | [] => Except.error IntErrorKind.Empty
  | c :: rest =>
    if (c = '+' ∨ c = '-') ∧ rest = [] then Except.error IntErrorKind.InvalidDigit
    else if c = '+' then parseDigits rest 0
    else parseDigits (c :: rest) 0

/-- Embedding of `s.split(',').collect::<Vec<&str>>()`: full split on every
comma, preserving empty fields; the empty string yields one empty field. -/
def splitComma : List Char → List (List Char)
  | [] => [[]]
  | c :: rest =>
    if c = ',' then [] :: splitComma rest
    else
      match splitComma rest with
      | [] => [[c]]
      | f :: fs => (c :: f) :: fs

/-- The `Person` struct of both exercises: a name and a `u8` age. -/
structure Person where
  name : List Char
  age : Nat
deriving DecidableEq, Repr

/-- The error enum of `from_str.rs`: `BadLen` for a field count other than
2, `NoName` for an empty name field, `ParseInt` wrapping the error from
`parse::<u8>()`. -/
inductive ParsePersonError where
  | BadLen
  | NoName
  | ParseInt (e : IntErrorKind)
deriving DecidableEq, Repr

/-- Embedding of `Person::default()` in `from_into.rs`: name `"John"`,
age `30`. -/
def Person.default : Person :=
  { name := "John".toList, age := 30 }

/-- Embedding of `Person::from_str` in `from_str.rs`.  The `parts[0]` and
`parts[1]` index expressions are embedded via `List.get?`, with `none`
standing for the panic branch of an out-of-bounds index. -/
def Person.fromStr? (s : List Char) : Option (Except ParsePersonError Person) :=
  let parts := splitComma s
  if parts.length ≠ 2 then
    some (Except.error ParsePersonError.BadLen)
  else
    match parts.get? 0 with
    | none => none
    | some name =>
      if name = [] then
        some (Except.error ParsePersonError.NoName)
      else
        match parts.get? 1 with
        | none => none
        | some ageStr =>
          match parseU8 ageStr with
          | Except.ok age => some (Except.ok { name := name, age := age })
          | Except.error e => some (Except.error (ParsePersonError.ParseInt e))

/-- Embedding of `Person::from` in `from_into.rs`, with the same `none`
convention for the panic branch of `parts[0]` / `parts[1]`. -/
def Person.fromInto? (s : List Char) : Option Person :=
  let parts := splitComma s
  if parts.length ≠ 2 then
    some Person.default
  else
    match parts.get? 0 with
    | none => none
    | some name =>
      if name = [] then
        some Person.default
      else
        match parts.get? 1 with
        | none => none
        | some ageStr =>
          match parseU8 ageStr with
          | Except.ok age => some { name := name, age := age }
          | Except.error _ => some Person.default

instance {ε α : Type} [DecidableEq ε] [DecidableEq α] : DecidableEq (Except ε α) :=
  fun x y =>
    match x, y with
    | Except.ok a, Except.ok b =>
      if h : a = b then isTrue (by rw [h])
      else isFalse (fun hc => h (Except.ok.inj hc))
    | Except.ok _, Except.error _ => isFalse (fun hc => Except.noConfusion hc)
    | Except.error _, Except.ok _ => isFalse (fun hc => Except.noConfusion hc)
    | Except.error e, Except.error f =>
      if h : e = f then isTrue (by rw [h])
      else isFalse (fun hc => h (Except.error.inj hc))

/-- Drop a single leading `+` sign, if present.  Used by the spec-side
characterization of the age field. -/
def stripPlus (s : List Char) : List Char :=
  match s with
  | [] => []
  | c :: rest => if c = '+' then rest else c :: rest

/-- Value of a digit string read in base 10 starting from accumulator
`acc`. -/
def foldVal (acc : Nat) (ds : List Char) : Nat :=
  ds.foldl (fun a c => a * 10 + (c.toNat - '0'.toNat)) acc

/-- Numeric value denoted by a string of decimal digits. -/
def digitsVal (ds : List Char) : Nat :=
  foldVal 0 ds

/-- Spec-side characterization of an age field accepted by `parse::<u8>()`:
after dropping one optional leading `+`, what remains is a non-empty string
of decimal digits denoting a value at most 255. -/
def validAgeField (s : List Char) : Prop :=
  stripPlus s ≠ [] ∧ (∀ c ∈ stripPlus s, '0' ≤ c ∧ c ≤ '9') ∧
    digitsVal (stripPlus s) ≤ 255

instance (s : List Char) : Decidable (validAgeField s) := by
  unfold validAgeField
  infer_instance

lemma digitVal_none_iff (c : Char) :
    digitVal c = none ↔ ¬('0' ≤ c ∧ c ≤ '9') := by
  unfold digitVal
  split <;> simp_all

lemma digitVal_some_iff (c : Char) (d : Nat) :
    digitVal c = some d ↔ (('0' ≤ c ∧ c ≤ '9') ∧ d = c.toNat - '0'.toNat) := by
  unfold digitVal
  split <;> simp_all [eq_comm]

lemma foldVal_cons (acc : Nat) (c : Char) (ds : List Char) :
    foldVal acc (c :: ds) = foldVal (acc * 10 + (c.toNat - '0'.toNat)) ds := rfl

lemma le_foldVal (acc : Nat) (ds : List Char) : acc ≤ foldVal acc ds := by
  induction ds generalizing acc with
  | nil => exact Nat.le_refl _
  | cons c ds ih =>
    rw [foldVal_cons]
    exact le_trans (by omega) (ih (acc * 10 + (c.toNat - '0'.toNat)))

lemma parseDigits_ok_iff (ds : List Char) (acc n : Nat) (hacc : acc ≤ 255) :
    parseDigits ds acc = Except.ok n ↔
      ((∀ c ∈ ds, '0' ≤ c ∧ c ≤ '9') ∧ n = foldVal acc ds ∧ foldVal acc ds ≤ 255) := by
  induction ds generalizing acc with
  | nil =>
    simp only [parseDigits, foldVal, List.foldl_nil, List.not_mem_nil]
    constructor
    · intro h
      obtain rfl := Except.ok.inj h
      exact ⟨by simp, rfl, hacc⟩
    · rintro ⟨-, rfl, -⟩
      rfl
  | cons c ds ih =>
    simp only [parseDigits]
    cases hd : digitVal c with
    | none =>
      have hc : ¬('0' ≤ c ∧ c ≤ '9') := (digitVal_none_iff c).mp hd
      constructor
      · intro h
        exact absurd h (by simp)
      · rintro ⟨hall, -, -⟩
        exact absurd (hall c (by simp)) hc
    | some d =>
      obtain ⟨hc, rfl⟩ := (digitVal_some_iff c d).mp hd
      show (if acc * 10 + (c.toNat - '0'.toNat) > 255 then
          Except.error IntErrorKind.PosOverflow
        else parseDigits ds (acc * 10 + (c.toNat - '0'.toNat))) = Except.ok n ↔ _
      by_cases hov : acc * 10 + (c.toNat - '0'.toNat) > 255
      · rw [if_pos hov]
        constructor
        · intro h
          exact absurd h (by simp)
        · rintro ⟨-, -, hle⟩
          rw [foldVal_cons] at hle
          have := le_foldVal (acc * 10 + (c.toNat - '0'.toNat)) ds
          omega
      · rw [if_neg hov]
        rw [ih (acc * 10 + (c.toNat - '0'.toNat)) (by omega)]
        rw [foldVal_cons]
        simp [List.forall_mem_cons, hc]

lemma parseU8_ok_iff (s : List Char) (n : Nat) :
    parseU8 s = Except.ok n ↔ (validAgeField s ∧ n = digitsVal (stripPlus s)) := by
  cases s with
  | nil =>
    simp [parseU8, validAgeField, stripPlus]
  | cons c rest =>
    simp only [parseU8]
    by_cases hsign : (c = '+' ∨ c = '-') ∧ rest = []
    · rw [if_pos hsign]
      obtain ⟨hc, rfl⟩ := hsign
      rcases hc with rfl | rfl
      · simp [validAgeField, stripPlus]
      · constructor
        · intro h
          exact absurd h (by simp)
        · rintro ⟨⟨-, hall, -⟩, -⟩
          have h1 : stripPlus ['-'] = ['-'] := by decide
          rw [h1] at hall
          exact absurd (hall '-' (by simp)) (by decide)
    · rw [if_neg hsign]
      by_cases hp : c = '+'
      · subst hp
        have hr : rest ≠ [] := fun h => hsign ⟨Or.inl rfl, h⟩
        rw [if_pos rfl]
        have h1 : stripPlus ('+' :: rest) = rest := by simp [stripPlus]
        rw [parseDigits_ok_iff rest 0 n (by omega)]
        simp [validAgeField, h1, digitsVal, hr]
        tauto
      · rw [if_neg hp]
        have h1 : stripPlus (c :: rest) = c :: rest := by simp [stripPlus, hp]
        rw [parseDigits_ok_iff (c :: rest) 0 n (by omega)]
        simp [validAgeField, h1, digitsVal]
        tauto

lemma parseU8_le (s : List Char) (n : Nat) (h : parseU8 s = Except.ok n) : n ≤ 255 := by
  obtain ⟨⟨-, -, hle⟩, rfl⟩ := (parseU8_ok_iff s n).mp h
  exact hle

lemma fromStr_badlen (s : List Char) (h : (splitComma s).length ≠ 2) :
    Person.fromStr? s = some (Except.error ParsePersonError.BadLen) := by
  simp only [Person.fromStr?]
  rw [if_pos h]

lemma fromInto_badlen (s : List Char) (h : (splitComma s).length ≠ 2) :
    Person.fromInto? s = some Person.default := by
  simp only [Person.fromInto?]
  rw [if_pos h]

lemma fromStr_two (s a b : List Char) (h : splitComma s = [a, b]) :
    Person.fromStr? s =
      (if a = [] then some (Except.error ParsePersonError.NoName)
       else
         match parseU8 b with
         | Except.ok age => some (Except.ok { name := a, age := age })
         | Except.error e => some (Except.error (ParsePersonError.ParseInt e))) := by
  simp only [Person.fromStr?, h]
  rfl

lemma fromInto_two (s a b : List Char) (h : splitComma s = [a, b]) :
    Person.fromInto? s =
      (if a = [] then some Person.default
       else
         match parseU8 b with
         | Except.ok age => some { name := a, age := age }
         | Except.error _ => some Person.default) := by
  simp only [Person.fromInto?, h]
  rfl

/-- Claim C1: for every input string on which the strict parser
`Person.fromStr?` succeeds with some record, the default-fallback parser
`Person.fromInto?` applied to the same input returns a record with identical
name and age. -/
theorem strict_success_agrees_with_default (s : List Char) (p : Person)
    (h : Person.fromStr? s = some (Except.ok p)) :
    Person.fromInto? s = some p := by
  by_cases hl : (splitComma s).length = 2
  · obtain ⟨a, b, hab⟩ := List.length_eq_two.mp hl
    rw [fromStr_two s a b hab] at h
    rw [fromInto_two s a b hab]
    by_cases ha : a = []
    · rw [if_pos ha] at h
      simp at h
    · rw [if_neg ha] at h
      rw [if_neg ha]
      cases hb : parseU8 b with
      | ok age =>
        rw [hb] at h
        simp only [Option.some.injEq, Except.ok.injEq] at h
        subst h
        rfl
      | error e =>
        rw [hb] at h
        simp at h
  · rw [fromStr_badlen s hl] at h
    simp at h

/-- Witness for C1 at the concrete input `"Mark,20"`. -/
theorem strict_success_agrees_with_default_witness :
    Person.fromInto? "Mark,20".toList
      = some { name := "Mark".toList, age := 20 } :=
  strict_success_agrees_with_default "Mark,20".toList
    { name := "Mark".toList, age := 20 } (by decide)

/-- Claim C2: for every input string, the default-fallback parser
`Person.fromInto?` returns a record whose name is non-empty and whose age is
at most 255. -/
theorem default_result_invariants (s : List Char) :
    ∃ p, Person.fromInto? s = some p ∧ p.name ≠ [] ∧ p.age ≤ 255 := by
  by_cases hl : (splitComma s).length = 2
  · obtain ⟨a, b, hab⟩ := List.length_eq_two.mp hl
    rw [fromInto_two s a b hab]
    by_cases ha : a = []
    · rw [if_pos ha]
      exact ⟨Person.default, rfl, by decide, by decide⟩
    · rw [if_neg ha]
      cases hb : parseU8 b with
      | ok age =>
        exact ⟨{ name := a, age := age }, rfl, ha, parseU8_le b age hb⟩
      | error e =>
        exact ⟨Person.default, rfl, by decide, by decide⟩
  · rw [fromInto_badlen s hl]
    exact ⟨Person.default, rfl, by decide, by decide⟩

/-- Claim C3: for every input string on which the strict parser
`Person.fromStr?` fails with any error, the default-fallback parser
`Person.fromInto?` returns the default record. -/
theorem strict_failure_gives_default (s : List Char) (e : ParsePersonError)
    (h : Person.fromStr? s = some (Except.error e)) :
    Person.fromInto? s = some Person.default := by
  by_cases hl : (splitComma s).length = 2
  · obtain ⟨a, b, hab⟩ := List.length_eq_two.mp hl
    rw [fromStr_two s a b hab] at h
    rw [fromInto_two s a b hab]
    by_cases ha : a = []
    · rw [if_pos ha]
    · rw [if_neg ha] at h
      rw [if_neg ha]
      cases hb : parseU8 b with
      | ok age =>
        rw [hb] at h
        simp at h
      | error e2 =>
        rfl
  · rw [fromInto_badlen s hl]

/-- Witness for C3 at the concrete input `""`. -/
theorem strict_failure_gives_default_witness :
    Person.fromInto? "".toList = some Person.default :=
  strict_failure_gives_default "".toList ParsePersonError.BadLen (by decide)

/-- Claim C10: both parsers are total functions of their input: the panic
branch of the indexings `parts[0]` and `parts[1]` (the `none` value of the
embedding) is unreachable for every input string. -/
theorem parsers_never_panic (s : List Char) :
    (Person.fromStr? s).isSome = true ∧ (Person.fromInto? s).isSome = true := by
  by_cases hl : (splitComma s).length = 2
  · obtain ⟨a, b, hab⟩ := List.length_eq_two.mp hl
    rw [fromStr_two s a b hab, fromInto_two s a b hab]
    by_cases ha : a = []
    · rw [if_pos ha, if_pos ha]
      exact ⟨rfl, rfl⟩
    · rw [if_neg ha, if_neg ha]
      cases hb : parseU8 b with
      | ok age => exact ⟨rfl, rfl⟩
      | error e => exact ⟨rfl, rfl⟩
  · rw [fromStr_badlen s hl, fromInto_badlen s hl]
    exact ⟨rfl, rfl⟩

/-- Claim C5: field count is checked first: whenever the split does not
produce exactly 2 fields, the strict parser returns `BadLen` regardless of
field contents and the default parser returns the default record. -/
theorem badlen_checked_first (s : List Char)
    (h : (splitComma s).length ≠ 2) :
    Person.fromStr? s = some (Except.error ParsePersonError.BadLen)
      ∧ Person.fromInto? s = some Person.default :=
  ⟨fromStr_badlen s h, fromInto_badlen s h⟩

/-- Witness for C5 at the concrete input `"Mike,32,dog"`, whose first field
is non-empty and whose second field parses as a valid age. -/
theorem badlen_checked_first_witness :
    Person.fromStr? "Mike,32,dog".toList
        = some (Except.error ParsePersonError.BadLen)
      ∧ Person.fromInto? "Mike,32,dog".toList = some Person.default :=
  badlen_checked_first "Mike,32,dog".toList (by decide)

/-- Claim C6: on the empty input the split yields one field, so the strict
parser returns `BadLen` and the default parser returns the record with name
`"John"` and age 30. -/
theorem empty_input_badlen :
    (splitComma "".toList).length = 1
      ∧ Person.fromStr? "".toList = some (Except.error ParsePersonError.BadLen)
      ∧ Person.fromInto? "".toList
          = some { name := "John".toList, age := 30 } := by
  decide

/-- Claim C7: the split preserves empty fields: `"Mark,"` splits into
`["Mark", ""]`, passes the field-count and non-empty-name checks, and fails
at age parsing, so the strict parser returns `ParseInt` (with the `Empty`
cause) and the default parser returns the default record. -/
theorem trailing_comma_empty_field :
    splitComma "Mark,".toList = ["Mark".toList, []]
      ∧ Person.fromStr? "Mark,".toList
          = some (Except.error (ParsePersonError.ParseInt IntErrorKind.Empty))
      ∧ Person.fromInto? "Mark,".toList = some Person.default := by
  decide

/-- Claim C8: the empty-name check precedes age parsing: whenever the split
yields exactly two fields with an empty first field, the strict parser
returns `NoName` regardless of the second field's content. -/
theorem noname_before_age (s b : List Char)
    (h : splitComma s = [[], b]) :
    Person.fromStr? s = some (Except.error ParsePersonError.NoName) := by
  rw [fromStr_two s [] b h]
  rfl

/-- Witness for C8 at the concrete input `",one"`, whose age field is
invalid text (and at which `NoName`, not `ParseInt`, is returned). -/
theorem noname_before_age_witness :
    Person.fromStr? ",one".toList
      = some (Except.error ParsePersonError.NoName) :=
  noname_before_age ",one".toList "one".toList (by decide)

/-- Claim C9: the name field is copied verbatim, with no trimming: whenever
the split yields two fields, the first non-empty and the second a valid age,
both parsers succeed and return the first field unchanged as the name. -/
theorem name_copied_verbatim (s a b : List Char) (n : Nat)
    (h : splitComma s = [a, b]) (ha : a ≠ [])
    (hb : parseU8 b = Except.ok n) :
    Person.fromStr? s = some (Except.ok { name := a, age := n })
      ∧ Person.fromInto? s = some { name := a, age := n } := by
  rw [fromStr_two s a b h, fromInto_two s a b h, if_neg ha, if_neg ha, hb]
  exact ⟨rfl, rfl⟩

/-- Witness for C9 at the concrete input `" ,20"`, whose name field is a
single whitespace character that is returned verbatim. -/
theorem name_copied_verbatim_witness :
    Person.fromStr? " ,20".toList
        = some (Except.ok { name := [' '], age := 20 })
      ∧ Person.fromInto? " ,20".toList = some { name := [' '], age := 20 } :=
  name_copied_verbatim " ,20".toList [' '] "20".toList 20
    (by decide) (by decide) (by decide)

/-- Counterexample to claim C4 as stated: the input `"Bob,+20"` splits into
exactly two fields with a non-empty first field, and its age field `"+20"`
contains the sign character `'+'` (a non-digit character), yet the age
parse succeeds in both parsers instead of failing. -/
theorem sign_not_rejected_counterexample :
    splitComma "Bob,+20".toList = ["Bob".toList, "+20".toList]
      ∧ "Bob".toList ≠ []
      ∧ '+' ∈ "+20".toList
      ∧ ¬('0' ≤ '+' ∧ '+' ≤ '9')
      ∧ Person.fromStr? "Bob,+20".toList
          = some (Except.ok { name := "Bob".toList, age := 20 })
      ∧ Person.fromInto? "Bob,+20".toList
          = some { name := "Bob".toList, age := 20 } := by
  decide

/-- Claim C4 (amended): for every input that splits into exactly two fields
with a non-empty first field, if the age field, after dropping one optional
leading `+`, is a non-empty string of digits denoting a value at most 255,
both parsers succeed with that value; otherwise the age parse fails — the
strict parser returns `ParseInt` and the default parser returns the default
record.  In particular the empty field, any non-digit character outside an
optional leading `+` (so any `-`), a lone `+`, and values exceeding 255 are
rejected. -/
theorem age_field_validation (s a b : List Char)
    (h : splitComma s = [a, b]) (ha : a ≠ []) :
    (validAgeField b →
        Person.fromStr? s
            = some (Except.ok { name := a, age := digitsVal (stripPlus b) })
          ∧ Person.fromInto? s
            = some { name := a, age := digitsVal (stripPlus b) })
      ∧ (¬validAgeField b →
        (∃ e, Person.fromStr? s
            = some (Except.error (ParsePersonError.ParseInt e)))
          ∧ Person.fromInto? s = some Person.default) := by
  constructor
  · intro hv
    have hok : parseU8 b = Except.ok (digitsVal (stripPlus b)) :=
      (parseU8_ok_iff b _).mpr ⟨hv, rfl⟩
    rw [fromStr_two s a b h, fromInto_two s a b h, if_neg ha, if_neg ha, hok]
    exact ⟨rfl, rfl⟩
  · intro hv
    cases hb : parseU8 b with
    | ok m => exact absurd ((parseU8_ok_iff b m).mp hb).1 hv
    | error e =>
      refine ⟨⟨e, ?_⟩, ?_⟩
      · rw [fromStr_two s a b h, if_neg ha, hb]
      · rw [fromInto_two s a b h, if_neg ha, hb]

/-- Witness for the amended C4 at the concrete input `"A,20"`. -/
theorem age_field_validation_witness :
    Person.fromStr? "A,20".toList
      = some (Except.ok { name := "A".toList, age := 20 }) :=
  ((age_field_validation "A,20".toList "A".toList "20".toList
    (by decide) (by decide)).1 (by decide)).1
